import Mathlib

/-!
# A shallow embedding of the asdf version-manager core (Rust) in Lean 4

This file models, definition by definition, the Rust sources of the
`asdf` runtime version manager (files `src/tool_versions.rs`, `src/lib.rs`,
`src/core/reshim.rs`, `src/core/installs.rs`, `src/core/latest.rs`,
`src/core/list.rs`) and proves or refutes the specification claims about it.

Strings are modelled as `List Char` (`Str`), filesystem paths as lists of
path components (`FsPath`), and the effectful core as explicit state passing
over a filesystem value (`M α := Fs → Except Str α × Fs`).  External
subprocess invocations (plugin callback scripts, hooks) and environment
variables are modelled as unintepreted functions carried by a `World`
record, so every modelled function stays executable and deterministic.
-/

namespace Asdf

/-- Rust `String` / `&str`, modelled as a list of characters. -/
abbrev Str := List Char

/-- A filesystem path, as the list of its components under the root. -/
abbrev FsPath := List Str

/-! ## String primitives (models of the Rust std functions used) -/

/-- Model of Rust `str::starts_with`: `strStartsWith s p` is true iff `p`
is a prefix of `s`. -/
def strStartsWith : Str → Str → Bool
  | _, [] => true
  | [], _ :: _ => false
  | c :: cs, p :: ps => c = p && strStartsWith cs ps

/-- Model of Rust `str::trim_end`: drop trailing whitespace. -/
def trimEnd (s : Str) : Str :=
  (s.reverse.dropWhile Char.isWhitespace).reverse

/-- Model of Rust `str::trim_start`. -/
def trimStart (s : Str) : Str :=
  s.dropWhile Char.isWhitespace

/-- Model of Rust `str::trim`. -/
def trimBoth (s : Str) : Str :=
  trimEnd (trimStart s)

/-- Split on a separator character, keeping empty segments
(model of Rust `str::split(char)`).  Never returns `[]`. -/
def splitChar (s : Str) (sep : Char) : List Str :=
  match s with
  | [] => [[]]
  | c :: rest =>
    match splitChar rest sep with
    | [] => [[]]
    | seg :: segs => if c = sep then [] :: seg :: segs else (c :: seg) :: segs

/-- Model of Rust `str::splitn(2, sep)` / `split_once`: split at the first
occurrence of `sep`, or `none` if absent. -/
def splitOnce (s : Str) (sep : Char) : Option (Str × Str) :=
  if s.contains sep then
    some (s.takeWhile (· ≠ sep), (s.dropWhile (· ≠ sep)).tail)
  else
    none

/-- Model of Rust `str::split_whitespace`: maximal runs of
non-whitespace characters. -/
def splitWhitespace (s : Str) : List Str :=
  (s.splitOnP Char.isWhitespace).filter (· ≠ [])

/-- Model of Rust `str::lines`: split on `'\n'`, with no trailing empty
line, and a trailing `'\r'` stripped from each line. -/
def rustLines (s : Str) : List Str :=
  let parts := splitChar s '\n'
  let parts := if s.getLast? = some '\n' then parts.dropLast
               else if s.isEmpty then [] else parts
  parts.map fun l => if l.getLast? = some '\r' then l.dropLast else l

/-- Index of the first occurrence of `pat` in `s`
(model of Rust `str::find(pat)`). -/
def findSubstrIdx (pat : Str) : Str → Option Nat
  | [] => if pat.isEmpty then some 0 else none
  | c :: rest =>
    if strStartsWith (c :: rest) pat then some 0
    else (findSubstrIdx pat rest).map (· + 1)

/-- Model of Rust `str::contains(pat)` for a substring pattern. -/
def containsSub (s pat : Str) : Bool :=
  (findSubstrIdx pat s).isSome

/-- Model of Rust `str::replacen(pat, repl, 1)`: replace the first
occurrence of `pat`, if any. -/
def replaceFirst (s pat repl : Str) : Str :=
  match findSubstrIdx pat s with
  | none => s
  | some i => s.take i ++ repl ++ s.drop (i + pat.length)

/-- Fuel-indexed scanner for `replaceAll` (structural recursion on the
fuel so that the definition evaluates inside the kernel). -/
def replaceAllFuel (pat repl : Str) : Nat → Str → Str
  | 0, s => s
  | _ + 1, [] => []
  | fuel + 1, c :: rest =>
    if pat ≠ [] ∧ strStartsWith (c :: rest) pat then
      repl ++ replaceAllFuel pat repl fuel ((c :: rest).drop pat.length)
    else
      c :: replaceAllFuel pat repl fuel rest

/-- Model of Rust `str::replace(pat, repl)` (all non-overlapping
occurrences, left to right).  Each scanner step consumes at least one
character, so `s.length` fuel is enough. -/
def replaceAll (s pat repl : Str) : Str :=
  replaceAllFuel pat repl s.length s

/-- Model of Rust `str::to_uppercase` (ASCII case suffices here). -/
def strUpper (s : Str) : Str :=
  s.map Char.toUpper

/-- Lexicographic comparison of strings by character codes
(the order Rust `Vec::<String>::sort` uses, restricted to our use). -/
def strLe : Str → Str → Bool
  | [], _ => true
  | _ :: _, [] => false
  | a :: as, b :: bs => if a = b then strLe as bs else decide (a.val < b.val)

/-- Insertion sort by `strLe` (model of `Vec::<String>::sort`). -/
def sortStrs (l : List Str) : List Str :=
  let rec ins (x : Str) : List Str → List Str
    | [] => [x]
    | y :: ys => if strLe x y then x :: y :: ys else y :: ins x ys
  l.foldr ins []

/-- First whitespace-free word: model of `s.split(' ').next().unwrap()`. -/
def firstWord (s : Str) : Str :=
  s.takeWhile (· ≠ ' ')

/-! ## Path helpers -/

/-- Turn a path string into components: split on `'/'`, dropping empty
components (models `PathBuf` component normalisation). -/
def strToPath (s : Str) : FsPath :=
  (splitChar s '/').filter (· ≠ [])

/-- Model of `PathBuf::join(s)` for a runtime string `s`: an absolute `s`
replaces the whole path, a relative one is appended. -/
def joinStr (p : FsPath) (s : Str) : FsPath :=
  if s.head? = some '/' then strToPath s else p ++ strToPath s

/-- Render a path back to an absolute path string (for `Command::new`). -/
def pathToStr (p : FsPath) : Str :=
  '/' :: (List.intercalate ['/'] p)

/-! ## Tool-version grammar (src/tool_versions.rs) -/

deriving instance DecidableEq for Except

/-- The tagged version specifier, `enum ToolVersion` in
`src/tool_versions.rs`. -/
inductive ToolVersion where
  | Latest : Option Str → ToolVersion
  | Path : FsPath → ToolVersion
  | Ref : Str → ToolVersion
  | System : ToolVersion
  | Version : Str → ToolVersion
deriving DecidableEq, Repr

/-- `impl FromStr for ToolVersion` (`src/tool_versions.rs` lines 62-80):
empty fails; `system`, `ref:`, `latest`, `latest:` are recognised in that
order; everything else (including `path:…` — there is no `path:` branch in
the source) becomes `Version`. -/
def toolVersionFromStr (s : Str) : Except Str ToolVersion :=
  if s.isEmpty then
    .error ("Cannot parse empty string as a tool version".data)
  else if s = "system".data then
    .ok .System
  else if strStartsWith s ("ref:".data) then
    .ok (.Ref (s.drop 4))
  else if s = "latest".data then
    .ok (.Latest none)
  else if strStartsWith s ("latest:".data) then
    .ok (.Latest (some (s.drop 7)))
  else
    .ok (.Version s)

/-- `ToolVersion::install_type` (`src/tool_versions.rs` lines 96-104). -/
def ToolVersion.installType : ToolVersion → Str
  | .Latest _ => "version".data
  | .Path _ => "path".data
  | .Ref _ => "ref".data
  | .System => "system".data
  | .Version _ => "version".data

/-- The per-line body of `ToolVersions::from_str`
(`src/tool_versions.rs` lines 34-47): split at the first space; a rest
beginning with `path:` becomes a single specifier for the remainder of the
line; otherwise the rest is whitespace-split into specifiers. -/
def toolVersionsParseLine (line : Str) : Except Str (Str × List ToolVersion) :=
  match splitOnce line ' ' with
  | some (plugin_name, versions) =>
    if strStartsWith versions ("path:".data) then
      (toolVersionFromStr versions).map fun tv => (plugin_name, [tv])
    else
      (versions |> splitWhitespace |>.mapM toolVersionFromStr).map
        fun tvs => (plugin_name, tvs)
  | none => .error ("Cannot parse .tool-versions line: ".data ++ line)

/-- The comment filter inside `ToolVersions::from_str`
(`src/tool_versions.rs` lines 20-33): drop everything from the first `#`
on, right-trim, and drop the line when nothing remains.  (Unlike
`remove_tool_version_comments` below, this one returns the stripped
line.) -/
def toolVersionsStripLine (line : Str) : Option Str :=
  let uncommented :=
    if line.contains '#' then trimEnd (line.takeWhile (· ≠ '#'))
    else trimEnd line
  if uncommented.isEmpty then none else some uncommented

/-- The per-line results of `ToolVersions::from_str` in file order, before
they are collected into the `HashMap` (first error wins, as with
`collect::<Result<…>>`). -/
def toolVersionsPairs (s : Str) : Except Str (List (Str × List ToolVersion)) :=
  ((rustLines s).filterMap toolVersionsStripLine).mapM toolVersionsParseLine

/-- Canonical model of `std::collections::HashMap`: an association list
kept sorted by key.  A `HashMap` carries no insertion order, so the sorted
association list is its canonical representation; `mapInsert` replaces the
value of an existing key. -/
def mapInsert {α : Type} : List (Str × α) → Str → α → List (Str × α)
  | [], k, v => [(k, v)]
  | (k', v') :: rest, k, v =>
    if k = k' then (k, v) :: rest
    else if strLe k k' then (k, v) :: (k', v') :: rest
    else (k', v') :: mapInsert rest k v

/-- Building a `HashMap` from an iterator of pairs: left-to-right
insertion, so a later pair with the same key overwrites an earlier one. -/
def hashMapOfList {α : Type} (ps : List (Str × α)) : List (Str × α) :=
  ps.foldl (fun m p => mapInsert m p.1 p.2) []

/-- Lookup in the canonical `HashMap` model. -/
def mapLookup {α : Type} (m : List (Str × α)) (k : Str) : Option α :=
  (m.find? fun e => e.1 = k).map (·.2)

/-- `ToolVersions::from_str` (`src/tool_versions.rs` lines 16-50): parse
every non-comment line and collect the `(tool, specifiers)` pairs into a
`HashMap`. -/
def toolVersionsFromStr (s : Str) : Except Str (List (Str × List ToolVersion)) :=
  (toolVersionsPairs s).map hashMapOfList

/-- The tools of a `.tool-versions` document in order of their first
appearance (what "insertion order" would have to mean for the parse
result). -/
def firstAppearanceOrder (s : Str) : List Str :=
  match toolVersionsPairs s with
  | .error _ => []
  | .ok ps => (ps.map (·.1)).foldl
      (fun acc k => if acc.contains k then acc else acc ++ [k]) []

/-! ## Pure line parsers from src/lib.rs -/

/-- `remove_tool_version_comments` (`src/lib.rs` lines 388-401),
translated exactly: the stripped line `uncommented` is computed, but the
function returns `some line` — the ORIGINAL line — when `uncommented` is
non-empty. -/
def remove_tool_version_comments (line : Str) : Option Str :=
  let uncommented :=
    if line.contains '#' then trimEnd (line.takeWhile (· ≠ '#'))
    else trimEnd line
  if uncommented.isEmpty then none else some line

/-- What the function's own in-source comment ("Remove whitespace before
pound sign, the pound sign, and everything after it") says it should
return: the stripped line. -/
def remove_tool_version_comments_documented (line : Str) : Option Str :=
  let uncommented :=
    if line.contains '#' then trimEnd (line.takeWhile (· ≠ '#'))
    else trimEnd line
  if uncommented.isEmpty then none else some uncommented

/-- `parse_tool_version_line` (`src/lib.rs` lines 403-416): strip a
trailing comment (note: no right trim in the no-`#` branch), then split at
the first space. -/
def parse_tool_version_line (line : Str) : Option (Str × Str) :=
  let uncommented :=
    if line.contains '#' then trimEnd (line.takeWhile (· ≠ '#'))
    else line
  splitOnce uncommented ' '

/-! ## Filesystem and world model -/

/-- The mutable filesystem state: the set of existing directories, the
regular files with their contents, and the set of paths carrying an
execute permission bit. -/
structure Fs where
  dirs : List FsPath
  files : List (FsPath × Str)
  execs : List FsPath
deriving DecidableEq, Repr

namespace Fs

/-- `Path::is_dir`. -/
def isDir (fs : Fs) (p : FsPath) : Bool :=
  fs.dirs.contains p

/-- `fs::read_to_string`, as an `Option` (`none` = not a regular file). -/
def readFile (fs : Fs) (p : FsPath) : Option Str :=
  (fs.files.find? fun e => e.1 = p).map (·.2)

/-- `Path::is_file`. -/
def isFile (fs : Fs) (p : FsPath) : Bool :=
  (fs.readFile p).isSome

/-- `is_executable::IsExecutable::is_executable`. -/
def isExecutable (fs : Fs) (p : FsPath) : Bool :=
  fs.execs.contains p

/-- `fs::create_dir_all`: create the directory and all its ancestors;
succeeds even when it already exists. -/
def createDirAll (fs : Fs) (p : FsPath) : Fs :=
  { fs with dirs := p.inits ++ fs.dirs }

/-- `fs::create_dir`: fails when the directory already exists or the
parent is missing. -/
def createDir (fs : Fs) (p : FsPath) : Except Str Fs :=
  if fs.isDir p then .error ("File exists".data)
  else if !fs.isDir p.dropLast then .error ("No such file or directory".data)
  else .ok { fs with dirs := p :: fs.dirs }

/-- `fs::write`: create or truncate a regular file. -/
def writeFile (fs : Fs) (p : FsPath) (contents : Str) : Fs :=
  { fs with files := (p, contents) :: fs.files.filter (·.1 ≠ p) }

/-- `fs::remove_file`. -/
def removeFile (fs : Fs) (p : FsPath) : Except Str Fs :=
  if fs.isFile p then .ok { fs with files := fs.files.filter (·.1 ≠ p) }
  else .error ("No such file or directory".data)

/-- `fs::remove_dir_all`: remove a directory and everything under it. -/
def removeDirAll (fs : Fs) (p : FsPath) : Fs :=
  { fs with
    dirs := fs.dirs.filter fun q => ¬ p <+: q
    files := fs.files.filter fun e => ¬ p <+: e.1
    execs := fs.execs.filter fun q => ¬ p <+: q }

/-- `fs::set_permissions(p, 0o755)`: set the execute bit. -/
def setExec (fs : Fs) (p : FsPath) : Fs :=
  { fs with execs := p :: fs.execs }

/-- Deduplicate while keeping first occurrences. -/
def dedupPaths : List FsPath → List FsPath
  | [] => []
  | x :: rest => x :: (dedupPaths rest).filter (· ≠ x)

/-- `fs::read_dir`: the immediate children (files first, then
directories) of a directory, each listed once. -/
def readDir (fs : Fs) (p : FsPath) : List FsPath :=
  dedupPaths (((fs.files.map (·.1)) ++ fs.dirs).filter
    fun q => q.dropLast = p ∧ q ≠ p)

end Fs

/-- The unchanging outside world: environment variables, the home
directory, the current working directory, the behaviour of external
subprocesses (`rawCall prog args = (exit-ok, stdout, stderr)`), the
host CPU count and the path of the running executable. -/
structure World where
  env : List (Str × Str)
  home : Option FsPath
  cwd : FsPath
  rawCall : Str → List Str → Bool × Str × Str
  ncpus : Nat
  currentExe : Str

/-- `env::var_os`. -/
def World.getEnv (w : World) (k : Str) : Option Str :=
  (w.env.find? fun e => e.1 = k).map (·.2)

/-- The effectful core: explicit state passing over the filesystem.
Errors (`anyhow::Error` / early `?` returns) keep the filesystem state
accumulated so far, as the real process would. -/
def M (α : Type) := Fs → Except Str α × Fs

/-- `pure` for `M`. -/
def M.pureImpl {α : Type} (a : α) : M α := fun fs => (.ok a, fs)

/-- `bind` for `M`: stop at the first error, keeping the state. -/
def M.bindImpl {α β : Type} (m : M α) (f : α → M β) : M β := fun fs =>
  match m fs with
  | (.ok a, fs') => f a fs'
  | (.error e, fs') => (.error e, fs')

instance : Monad M where
  pure := M.pureImpl
  bind := M.bindImpl

/-- Fail with an error message (a `?` on an `Err`). -/
def M.throw {α : Type} (e : Str) : M α := fun fs => (.error e, fs)

/-- Lift a pure `Except` computation (a `?` on a non-IO `Result`). -/
def M.liftE {α : Type} : Except Str α → M α
  | .ok a => pure a
  | .error e => M.throw e

/-- Read-only access to the filesystem. -/
def M.get : M Fs := fun fs => (.ok fs, fs)

/-- Replace the filesystem. -/
def M.set (fs : Fs) : M Unit := fun _ => (.ok (), fs)

theorem M.run_pure {α : Type} (a : α) (fs : Fs) :
    (pure a : M α) fs = (.ok a, fs) := rfl

theorem M.run_bind {α β : Type} (m : M α) (f : α → M β) (fs : Fs) :
    (m >>= f) fs =
      match m fs with
      | (.ok a, fs') => f a fs'
      | (.error e, fs') => (.error e, fs') := rfl

theorem M.run_throw {α : Type} (e : Str) (fs : Fs) :
    (M.throw e : M α) fs = (.error e, fs) := rfl

theorem M.run_get (fs : Fs) : M.get fs = (.ok fs, fs) := rfl

theorem M.run_set (fs fs' : Fs) : M.set fs' fs = (.ok (), fs') := rfl

theorem M.run_liftE_ok {α : Type} (a : α) (fs : Fs) :
    M.liftE (.ok a) fs = (.ok a, fs) := rfl

theorem M.run_liftE_error {α : Type} (e : Str) (fs : Fs) :
    (M.liftE (.error e) : M α) fs = (.error e, fs) := rfl

/-- `call` (`src/lib.rs` lines 449-462): run a command, trim the trailing
whitespace of stdout on success, and turn a non-zero exit into an error
carrying stdout and stderr. -/
def call (w : World) (prog : Str) (args : List Str) : Except Str Str :=
  let (ok, out, err) := w.rawCall prog args
  if ok then .ok (trimEnd out)
  else .error (out ++ '\n' :: err ++ ['\n'])

/-! ## Paths and configuration (src/lib.rs) -/

/-- `asdf_data_dir` (`src/lib.rs` lines 52-57): `ASDF_DATA_DIR`, else
`<home>/.asdf`, else an error. -/
def asdf_data_dir (w : World) : Except Str FsPath :=
  match w.getEnv ("ASDF_DATA_DIR".data) with
  | some v => .ok (strToPath v)
  | none =>
    match w.home with
    | some h => .ok (h ++ [".asdf".data])
    | none => .error ("Cannot find asdf data directory".data)

/-- `asdf_config_file` (`src/lib.rs` lines 279-284). -/
def asdf_config_file (w : World) : Except Str FsPath :=
  match w.getEnv ("ASDF_CONFIG_FILE".data) with
  | some v => .ok (strToPath v)
  | none =>
    match w.home with
    | some h => .ok (h ++ [".asdfrc".data])
    | none => .error ("Cannot find asdf config file".data)

/-- `shims_path` (`src/lib.rs` line 286). -/
def shims_path (w : World) : Except Str FsPath :=
  (asdf_data_dir w).map (· ++ ["shims".data])

/-- `plugins_path` (`src/lib.rs` line 290). -/
def plugins_path (w : World) : Except Str FsPath :=
  (asdf_data_dir w).map (· ++ ["plugins".data])

/-- `installs_path` (`src/lib.rs` line 294). -/
def installs_path (w : World) : Except Str FsPath :=
  (asdf_data_dir w).map (· ++ ["installs".data])

/-- `downloads_path` (`src/lib.rs` line 302). -/
def downloads_path (w : World) : Except Str FsPath :=
  (asdf_data_dir w).map (· ++ ["downloads".data])

/-- `plugin_path` (`src/lib.rs` lines 140-142). -/
def plugin_path (w : World) (plugin_name : Str) : Except Str FsPath :=
  (plugins_path w).map (joinStr · plugin_name)

/-- `plugin_installs_path` (`src/lib.rs` lines 298-300). -/
def plugin_installs_path (w : World) (plugin_name : Str) : Except Str FsPath :=
  (installs_path w).map (joinStr · plugin_name)

/-- `plugin_downloads_path` (`src/lib.rs` lines 306-308). -/
def plugin_downloads_path (w : World) (plugin_name : Str) : Except Str FsPath :=
  (downloads_path w).map (joinStr · plugin_name)

/-- `install_path` (`src/lib.rs` lines 60-69): create the per-plugin
installs directory, then compute the target by install type. -/
def install_path (w : World) (plugin_name install_type version : Str) :
    M FsPath := do
  let plugin_dir ← M.liftE (plugin_installs_path w plugin_name)
  let fs ← M.get
  M.set (fs.createDirAll plugin_dir)
  if install_type = "version".data then
    pure (joinStr plugin_dir version)
  else if install_type = "path".data then
    pure (strToPath version)
  else
    pure (joinStr plugin_dir (install_type ++ '-' :: version))

/-- `download_path` (`src/lib.rs` lines 72-85). -/
def download_path (w : World) (plugin_name install_type version : Str) :
    M (Option FsPath) := do
  let downloads ← M.liftE (plugin_downloads_path w plugin_name)
  let fs ← M.get
  M.set (fs.createDirAll downloads)
  if install_type = "version".data then
    pure (some (joinStr downloads version))
  else if install_type = "path".data then
    pure none
  else
    pure (some (joinStr downloads (install_type ++ '-' :: version)))

/-- `list_installed_versions` (`src/lib.rs` lines 88-109).  Note the
source applies `.replace("^ref-", "ref:")`, i.e. replaces the literal
string `^ref-`, which never occurs in a file name. -/
def list_installed_versions (w : World) (plugin_name : Str) : M (List Str) := do
  let pip ← M.liftE (plugin_installs_path w plugin_name)
  let fs ← M.get
  if fs.isDir pip then
    let names := (fs.readDir pip).map fun p => (p.getLast?.getD [])
    pure (sortStrs (names.map fun n => replaceAll n ("^ref-".data) ("ref:".data)))
  else
    pure []

/-- `plugin_exists` (`src/lib.rs` lines 112-122). -/
def plugin_exists (w : World) (plugin_name : Str) : M Unit := do
  if plugin_name.isEmpty then
    M.throw ("No plugin given".data)
  else
    let pp ← M.liftE (plugin_path w plugin_name)
    let fs ← M.get
    if !fs.isDir pp then
      M.throw ("No such plugin: ".data ++ plugin_name)
    else
      pure ()

/-- `find_install_path` (`src/lib.rs` lines 251-275): `system` has no
install path; otherwise split at the first `:` — `ref`/`path` prefixes are
special, any other prefix falls back to a `version` install of the part
after the colon. -/
def find_install_path (w : World) (plugin_name version : Str) :
    M (Option FsPath) := do
  if version = "system".data then
    pure none
  else
    match splitOnce version ':' with
    | none => do
      pure (some (← install_path w plugin_name ("version".data) version))
    | some (version_type, v) =>
      if version_type = "ref".data then do
        pure (some (← install_path w plugin_name ("ref".data) v))
      else if version_type = "path".data then
        pure (some (strToPath v))
      else do
        pure (some (← install_path w plugin_name ("version".data) v))

/-- `version_exists` (`src/lib.rs` lines 125-135): `plugin_exists`, then —
only when an install path exists — require it to be a directory, failing
with an error whose message is the empty string. -/
def version_exists (w : World) (plugin_name version : Str) : M Unit := do
  plugin_exists w plugin_name
  match ← find_install_path w plugin_name version with
  | some ip =>
    let fs ← M.get
    if !fs.isDir ip then M.throw [] else pure ()
  | none => pure ()

/-- The directories visited when walking from `p` up to the root
(`p`, its parent, …, the root). -/
def ancestors (p : FsPath) : List FsPath :=
  p.inits.reverse

/-- `find_file_upwards` (`src/lib.rs` lines 310-323): walk from the
current directory upwards looking for `dir/name` as a file. -/
def find_file_upwards (w : World) (name : Str) : M (Option FsPath) := do
  let fs ← M.get
  pure ((ancestors w.cwd).findSome? fun d =>
    if fs.isFile (joinStr d name) then some (joinStr d name) else none)

/-- `asdf_config_value_from_file` (`src/lib.rs` lines 347-365): find the
first `key = value` line (both sides trimmed) for the key. -/
def asdf_config_value_from_file (fs : Fs) (config_path : FsPath) (key : Str) :
    Except Str Str :=
  match fs.readFile config_path with
  | none => .error ("File not found".data)
  | some contents =>
    match ((rustLines contents).filterMap fun line =>
        (splitOnce line '=').map fun (k, v) => (trimBoth k, trimBoth v))
        |>.find? (fun e => e.1 = key) with
    | some e => .ok e.2
    | none => .error ("Key not found in config file".data)

/-- `asdf_config_value` (`src/lib.rs` lines 367-386): nearest `.asdfrc`
found upwards from cwd, then the user config file, then built-in defaults
(`legacy_version_file = no`). -/
def asdf_config_value (w : World) (key : Str) : M (Option Str) := do
  let local? ← find_file_upwards w (".asdfrc".data)
  let fs ← M.get
  let localHit :=
    match local? with
    | some p =>
      match asdf_config_value_from_file fs p key with
      | .ok v => some v
      | .error _ => none
    | none => none
  match localHit with
  | some v => pure (some v)
  | none =>
    let config_path ← M.liftE (asdf_config_file w)
    match asdf_config_value_from_file fs config_path key with
    | .ok v => pure (some v)
    | .error _ =>
      if key = "legacy_version_file".data then
        pure (some ("no".data))
      else
        pure none

/-! ## Version resolution (src/lib.rs) -/

/-- `enum VersionSource` (`src/lib.rs` lines 23-28). -/
inductive VersionSource where
  | ToolVersion : FsPath → VersionSource
  | Legacy : FsPath → VersionSource
  | EnvVar : Str → VersionSource
deriving DecidableEq, Repr

/-- `struct VersionSpecifier` (`src/lib.rs` lines 17-21). -/
structure VersionSpecifier where
  version : Str
  source : VersionSource
deriving DecidableEq, Repr

/-- `env_var_for_plugin` (`src/lib.rs` lines 468-470). -/
def env_var_for_plugin (plugin_name : Str) : Str :=
  "ASDF_".data ++ strUpper plugin_name ++ "_VERSION".data

/-- `version_from_env` (`src/lib.rs` lines 241-248). -/
def version_from_env (w : World) (plugin_name : Str) : Option Str :=
  w.getEnv (env_var_for_plugin plugin_name)

/-- `parse_asdf_version_file` (`src/lib.rs` lines 422-432): the rest of
the first line naming the plugin, if the file exists. -/
def parse_asdf_version_file (fs : Fs) (file_path : FsPath)
    (plugin_name : Str) : Option Str :=
  match fs.readFile file_path with
  | none => none
  | some contents =>
    (((rustLines contents).filterMap parse_tool_version_line).find?
      fun e => e.1 = plugin_name).map (·.2)

/-- `parse_legacy_version_file` (`src/lib.rs` lines 434-447): run the
plugin's `parse-legacy-file` callback when present, otherwise return the
raw file contents (note: no trimming in the fallback branch). -/
def parse_legacy_version_file (w : World) (file_path : FsPath)
    (plugin_name : Str) : M (Option Str) := do
  let pp ← M.liftE (plugin_path w plugin_name)
  let parse_legacy_script := pp ++ ["bin".data, "parse-legacy-file".data]
  let fs ← M.get
  if fs.isFile file_path then
    if fs.isFile parse_legacy_script then
      pure (some (← M.liftE (call w (pathToStr parse_legacy_script) [pathToStr file_path])))
    else
      pure (fs.readFile file_path)
  else
    pure none

/-- First-hit search over a list, with effects (the shape of the source's
early-`return` `for` loops). -/
def firstSomeM {α β : Type} : List α → (α → M (Option β)) → M (Option β)
  | [], _ => pure none
  | x :: rest, f => do
    match ← f x with
    | some b => pure (some b)
    | none => firstSomeM rest f

/-- `version_in_dir` (`src/lib.rs` lines 147-175): `.tool-versions`
first, then each legacy filename in order. -/
def version_in_dir (w : World) (plugin_name : Str) (search_path : FsPath)
    (legacy_filenames : List Str) : M (Option VersionSpecifier) := do
  let tool_versions_path := joinStr search_path (".tool-versions".data)
  let fs ← M.get
  match parse_asdf_version_file fs tool_versions_path plugin_name with
  | some v => pure (some ⟨v, .ToolVersion tool_versions_path⟩)
  | none =>
    firstSomeM legacy_filenames fun legacy_filename => do
      let legacy_file_path := joinStr search_path legacy_filename
      match ← parse_legacy_version_file w legacy_file_path plugin_name with
      | some v => pure (some ⟨v, .Legacy legacy_file_path⟩)
      | none => pure none

/-- The `ASDF_DEFAULT_TOOL_VERSIONS_FILENAME` fallback at the end of
`find_versions` (`src/lib.rs` lines 218-235). -/
def find_versions_default (w : World) (plugin_name : Str) :
    M (Option VersionSpecifier) := do
  match w.getEnv ("ASDF_DEFAULT_TOOL_VERSIONS_FILENAME".data) with
  | some v =>
    let p := strToPath v
    let fs ← M.get
    if fs.isFile p then
      match parse_asdf_version_file fs p plugin_name with
      | some ver => pure (some ⟨ver, .ToolVersion p⟩)
      | none => pure none
    else
      pure none
  | none => pure none

/-- `find_versions` (`src/lib.rs` lines 178-236): environment variable
first; then collect the legacy filenames when enabled and supported; then
walk from `search_path` to the root; then the home directory; then the
default-file fallback. -/
def find_versions (w : World) (plugin_name : Str) (search_path : FsPath) :
    M (Option VersionSpecifier) := do
  match version_from_env w plugin_name with
  | some v => pure (some ⟨v, .EnvVar (env_var_for_plugin plugin_name)⟩)
  | none =>
    let legacy_config ← asdf_config_value w ("legacy_version_file".data)
    let pp ← M.liftE (plugin_path w plugin_name)
    let legacy_script := pp ++ ["bin".data, "list-legacy-filenames".data]
    let fs ← M.get
    let legacy_filenames ←
      if legacy_config = some ("yes".data) && fs.isFile legacy_script then
        pure (splitWhitespace (← M.liftE (call w (pathToStr legacy_script) [])))
      else
        pure []
    match ← firstSomeM (ancestors search_path)
        (fun d => version_in_dir w plugin_name d legacy_filenames) with
    | some spec => pure (some spec)
    | none =>
      match w.home with
      | some home =>
        match ← version_in_dir w plugin_name home legacy_filenames with
        | some spec => pure (some spec)
        | none => find_versions_default w plugin_name
      | none => find_versions_default w plugin_name

/-! ## Shim metadata and dispatch (src/lib.rs) -/

/-- `plugin_shims` (`src/lib.rs` lines 571-585): enumerate the shims
directory and filter with
`fs::read_to_string(path).map(|c| c.contains("# asdf-plugin: <tool> <v>")).is_ok()` —
the `contains` result is computed and then discarded by `.is_ok()`, so
the filter keeps every readable file. -/
def plugin_shims (w : World) (_plugin_name _full_version : Str) :
    M (List FsPath) := do
  let dd ← M.liftE (asdf_data_dir w)
  let shims_dir := dd ++ ["shims".data]
  let fs ← M.get
  if fs.isDir shims_dir then
    pure ((fs.readDir shims_dir).filter fun p => (fs.readFile p).isSome)
  else
    M.throw ("No such file or directory".data)

/-- The filter `plugin_shims` evidently intends (and the specification
describes): keep only the shim files whose contents contain the
`# asdf-plugin: <tool> <version>` metadata line.  Modelled from the spec
for comparison with `plugin_shims`. -/
def plugin_shims_documented (w : World) (plugin_name full_version : Str) :
    M (List FsPath) := do
  let dd ← M.liftE (asdf_data_dir w)
  let shims_dir := dd ++ ["shims".data]
  let fs ← M.get
  if fs.isDir shims_dir then
    pure ((fs.readDir shims_dir).filter fun p =>
      match fs.readFile p with
      | some contents =>
        containsSub contents
          ("# asdf-plugin: ".data ++ plugin_name ++ ' ' :: full_version)
      | none => false)
  else
    M.throw ("No such file or directory".data)

/-- `shim_plugin_versions` (`src/lib.rs` lines 630-646): the metadata
payloads (`<tool> <version>`) of an executable shim file. -/
def shim_plugin_versions (w : World) (executable : Str) : M (List Str) := do
  let executable_name := (strToPath executable).getLast?.getD executable
  let sp ← M.liftE (shims_path w)
  let shim_path := joinStr sp executable_name
  let fs ← M.get
  if fs.isExecutable shim_path then
    match fs.readFile shim_path with
    | some contents =>
      pure (((rustLines contents).filter
        fun line => strStartsWith line ("# asdf-plugin: ".data)).map
          fun line => line.drop 15)
    | none => M.throw ("No such file or directory".data)
  else
    M.throw ("asdf: unknown shim ".data ++ executable_name)

/-- `shim_plugins` (`src/lib.rs` lines 648-653). -/
def shim_plugins (w : World) (executable : Str) : M (List Str) := do
  pure ((← shim_plugin_versions w executable).map firstWord)

/-- `shim_versions` (`src/lib.rs` lines 655-665): the metadata payloads
plus, for each, a synthetic `<tool> system` entry. -/
def shim_versions (w : World) (shim_name : Str) : M (List Str) := do
  let versions ← shim_plugin_versions w shim_name
  pure (versions ++ versions.map fun v => firstWord v ++ ' ' :: "system".data)

/-- The innermost loop of `select_version` (`src/lib.rs` lines 682-693):
check one resolved token against every `<tool> <version>` entry.
`splitted[1]` panics when the entry has no space (modelled as an error). -/
def selectPairs (plugin_name tok : Str) : List Str → Except Str (Option Str)
  | [] => .ok none
  | pv :: rest =>
    match splitChar pv ' ' with
    | a :: b :: _ =>
      if plugin_name = a ∧ (tok = b ∨ strStartsWith tok ("path:".data)) then
        .ok (some (plugin_name ++ ' ' :: tok))
      else
        selectPairs plugin_name tok rest
    | _ => .error ("index out of bounds".data)

/-- The middle loop of `select_version`: try each whitespace-separated
token of the resolved version string in order. -/
def selectTokens (plugin_name : Str) (toks shim_vs : List Str) :
    Except Str (Option Str) :=
  match toks with
  | [] => .ok none
  | tok :: rest =>
    match selectPairs plugin_name tok shim_vs with
    | .error e => .error e
    | .ok (some r) => .ok (some r)
    | .ok none => selectTokens plugin_name rest shim_vs

/-- The outer loop of `select_version`: resolve each plugin claimed by
the shim, in metadata order. -/
def selectLoop (w : World) (shim_vs : List Str) : List Str → M (Option Str)
  | [] => pure none
  | plugin_name :: rest => do
    match ← find_versions w plugin_name w.cwd with
    | some version_spec =>
      match selectTokens plugin_name (splitChar version_spec.version ' ') shim_vs with
      | .error e => M.throw e
      | .ok (some r) => pure (some r)
      | .ok none => selectLoop w shim_vs rest
    | none => selectLoop w shim_vs rest

/-- `select_version` (`src/lib.rs` lines 667-699). -/
def select_version (w : World) (shim_name : Str) : M (Option Str) := do
  let shim_vs ← shim_versions w shim_name
  let plugins ← shim_plugins w shim_name
  selectLoop w shim_vs plugins

/-! ## Hooks and plugin callbacks (src/lib.rs, src/core/latest.rs,
src/core/list.rs) -/

/-- `asdf_run_hook` (`src/lib.rs` lines 531-548): look the hook command up
in the config and, when configured, run it through `bash -c`.  The extra
environment entries the source passes are not observable through the
`rawCall` model; the printed output is dropped. -/
def asdf_run_hook (w : World) (hook_name : Str) (args : List Str) : M Unit := do
  match ← asdf_config_value w hook_name with
  | some hook_cmd =>
    let _ ← M.liftE (call w ("bash".data) (["-c".data, hook_cmd, "bash".data] ++ args))
    pure ()
  | none => pure ()

/-- `list_plugin_bin_paths` (`src/lib.rs` lines 550-569): the
`list-bin-paths` callback's stdout split on single spaces, with `["bin"]`
as the default when the script is absent. -/
def list_plugin_bin_paths (w : World) (plugin_name version install_type : Str) :
    M (List Str) := do
  let pp ← M.liftE (plugin_path w plugin_name)
  let _ip ← install_path w plugin_name install_type version
  let script := pp ++ ["bin".data, "list-bin-paths".data]
  let fs ← M.get
  if fs.isFile script then
    let out ← M.liftE (call w (pathToStr script) [])
    pure (splitChar out ' ')
  else
    pure [("bin".data)]

/-- Does a line match the source's `^\s*<query>` filter in
`all_plugin_versions` (`src/core/list.rs`), with the query read
literally: some run of leading whitespace followed by the query. -/
def matchesQueryAnchor (line query : Str) : Bool :=
  (List.range ((line.takeWhile Char.isWhitespace).length + 1)).any
    fun i => strStartsWith (line.drop i) query

/-- `all_plugin_versions` (`src/core/list.rs` lines 7-46): raw
(untrimmed) `list-all` stdout split on spaces, optionally filtered by the
query. -/
def all_plugin_versions (w : World) (plugin_name : Str)
    (tool_version : Option Str) : M (List Str) := do
  let pp ← M.liftE (plugin_path w plugin_name)
  let fs ← M.get
  if ¬ plugin_name.isEmpty ∧ fs.isDir pp then
    let (ok, out, _err) := w.rawCall (pathToStr (pp ++ ["bin".data, "list-all".data])) []
    if ok then
      let versions := splitChar out ' '
      let filtered :=
        match tool_version with
        | some query => versions.filter fun line => matchesQueryAnchor line query
        | none => versions
      if filtered.isEmpty then
        M.throw ("No compatible versions available".data)
      else
        pure filtered
    else
      M.throw ("list-all callback script failed".data)
  else
    M.throw ("Plugin not found".data)

/-- Model of the `xxenv-latest` filter regex in `get_latest_version`
(`src/core/latest.rs`):
`(^Available versions:|-src|-dev|-latest|-stm|[-\.]rc|-alpha|-beta|[-\.]pre|-next|(a|b|c)[0-9]+|snapshot|master)`
(inside the character classes the escaped `\\` also admits a literal
backslash). -/
def hasAbcDigit : Str → Bool
  | [] => false
  | [_] => false
  | a :: b :: rest =>
    ((a = 'a' ∨ a = 'b' ∨ a = 'c') ∧ b.isDigit : Bool) || hasAbcDigit (b :: rest)

/-- The alternation of the filter regex, as a substring test. -/
def latestFilterMatch (s : Str) : Bool :=
  strStartsWith s ("Available versions:".data) ||
  containsSub s ("-src".data) || containsSub s ("-dev".data) ||
  containsSub s ("-latest".data) || containsSub s ("-stm".data) ||
  containsSub s ("-rc".data) || containsSub s ("\\rc".data) ||
  containsSub s (".rc".data) ||
  containsSub s ("-alpha".data) || containsSub s ("-beta".data) ||
  containsSub s ("-pre".data) || containsSub s ("\\pre".data) ||
  containsSub s (".pre".data) ||
  containsSub s ("-next".data) || hasAbcDigit s ||
  containsSub s ("snapshot".data) || containsSub s ("master".data)

/-- `get_latest_version` (`src/core/latest.rs` lines 9-37): the
`latest-stable` callback when present; otherwise the last of the filtered
`list-all` versions (the `.replace(r"^\s\+", "")` in the source replaces
the literal string `^\s\+`). -/
def get_latest_version (w : World) (plugin_name query : Str) : M Str := do
  let pp ← M.liftE (plugin_path w plugin_name)
  let latest_stable := pp ++ ["bin".data, "latest-stable".data]
  let fs ← M.get
  if fs.isFile latest_stable then
    let versions ← M.liftE (call w (pathToStr latest_stable) [query])
    if versions.isEmpty then
      M.throw ("No compatible versions available".data)
    else
      pure versions
  else
    let all ← all_plugin_versions w plugin_name (some query)
    match (((all.filter fun v => !latestFilterMatch v).map
        fun v => replaceAll v ("^\\s\\+".data) []).getLast?) with
    | some v => pure v
    | none => M.throw []

/-- `ToolVersion::install_version` (`src/tool_versions.rs` lines
106-116). -/
def toolVersionInstallVersion (w : World) (plugin_name : Str) :
    ToolVersion → M (Option Str)
  | .Latest q => do
    pure (some (← get_latest_version w plugin_name (q.getD [])))
  | .Path _ => pure none
  | .Ref v => pure (some v)
  | .System => pure none
  | .Version v => pure (some v)

/-- `list_plugin_exec_paths` (`src/lib.rs` lines 587-610): the plugin's
own `shims` directory when present, then each bin path under the install
path. -/
def list_plugin_exec_paths (w : World) (plugin_name full_version : Str) :
    M (List FsPath) := do
  plugin_exists w plugin_name
  let tool_version ← M.liftE (toolVersionFromStr full_version)
  let install_type := tool_version.installType
  let version ← do
    match ← toolVersionInstallVersion w plugin_name tool_version with
    | some v => pure v
    | none => M.throw ("called Option::unwrap on a None value".data)
  let pp ← M.liftE (plugin_path w plugin_name)
  let plugin_shims_path := pp ++ ["shims".data]
  let fs ← M.get
  let head := if fs.isDir plugin_shims_path then [plugin_shims_path] else []
  let bin_paths ← list_plugin_bin_paths w plugin_name version install_type
  let ip ← install_path w plugin_name install_type version
  pure (head ++ bin_paths.map (joinStr ip))

/-- The executable-collecting loop of `plugin_executables`
(`src/lib.rs` lines 616-625): `fs::read_dir` on a missing directory is an
error. -/
def collectExecutables : List FsPath → M (List FsPath)
  | [] => pure []
  | bp :: rest => do
    let fs ← M.get
    if ¬ fs.isDir bp then
      M.throw ("No such file or directory".data)
    else
      pure (((fs.readDir bp).filter fs.isExecutable) ++ (← collectExecutables rest))

/-- `plugin_executables` (`src/lib.rs` lines 612-628).  (The source
computes `list_plugin_exec_paths` twice; both computations are kept.) -/
def plugin_executables (w : World) (plugin_name full_version : Str) :
    M (List FsPath) := do
  let _exec_paths ← list_plugin_exec_paths w plugin_name full_version
  let all_bin_paths ← list_plugin_exec_paths w plugin_name full_version
  collectExecutables all_bin_paths

/-! ## Shim generation (src/core/reshim.rs) -/

/-- `ensure_shims_dir` (`src/core/reshim.rs` lines 81-89). -/
def ensure_shims_dir (w : World) : M Unit := do
  let sp ← M.liftE (shims_path w)
  let fs ← M.get
  if ¬ fs.isDir sp then
    match fs.createDir sp with
    | .ok fs' => M.set fs'
    | .error e => M.throw e
  else
    pure ()

/-- The contents of a freshly written shim file
(`src/core/reshim.rs` lines 103-106). -/
def freshShimContents (w : World) (plugin_name version executable_name : Str) :
    Str :=
  "#!/usr/bin/env bash\n# asdf-plugin: ".data ++ plugin_name ++ ' ' :: version ++
    '\n' :: "exec ".data ++ w.currentExe ++ " exec \"".data ++ executable_name ++
    "\" \"$@\"\n".data

/-- `write_shim_script` (`src/core/reshim.rs` lines 91-114): skip
non-executables; for an existing shim, prepend the metadata line above the
first `exec ` occurrence unconditionally (`contents.replacen("exec ", …, 1)`
— the source performs no already-present check); otherwise write a fresh
shim.  Mode is set to 0755. -/
def write_shim_script (w : World) (plugin_name version : Str)
    (executable_path : FsPath) : M Unit := do
  let fs ← M.get
  if ¬ fs.isExecutable executable_path then
    pure ()
  else
    match executable_path.getLast? with
    | none => M.throw ("called Option::unwrap on a None value".data)
    | some executable_name => do
      let dd ← M.liftE (asdf_data_dir w)
      let shim_path := joinStr (dd ++ ["shims".data]) executable_name
      let shim_contents :=
        match fs.readFile shim_path with
        | some contents =>
          replaceFirst contents ("exec ".data)
            ("# asdf-plugin: ".data ++ plugin_name ++ ' ' :: version ++
              '\n' :: "exec ".data)
        | none => freshShimContents w plugin_name version executable_name
      M.set ((fs.writeFile shim_path shim_contents).setExec shim_path)

/-- `generate_shims_for_version` (`src/core/reshim.rs` lines 116-123). -/
def generate_shims_for_version (w : World) (plugin_name full_version : Str) :
    M Unit := do
  let all_executable_paths ← plugin_executables w plugin_name full_version
  all_executable_paths.forM (write_shim_script w plugin_name full_version)

/-- `remove_shim_for_version` (`src/core/reshim.rs` lines 144-163):
filter out the one metadata line; delete the file when no `# asdf-plugin:`
line remains or the tool has no installed versions, else rewrite it. -/
def remove_shim_for_version (w : World) (plugin_name version shim : Str) :
    M Unit := do
  let shim_name := (strToPath shim).getLast?.getD shim
  let sp ← M.liftE (shims_path w)
  let shim_path := joinStr sp shim_name
  let count_installed := (← list_installed_versions w plugin_name).length
  let fs ← M.get
  match fs.readFile shim_path with
  | none => M.throw ("No such file or directory".data)
  | some contents =>
    let shim_contents := List.intercalate ['\n']
      ((rustLines contents).filter fun line =>
        line ≠ "# asdf-plugin: ".data ++ plugin_name ++ ' ' :: version)
    if ¬ containsSub shim_contents ("# asdf-plugin:".data) ∨ count_installed = 0 then
      match fs.removeFile shim_path with
      | .ok fs' => M.set fs'
      | .error e => M.throw e
    else
      M.set (fs.writeFile shim_path shim_contents)

/-- Deduplicate a list of names keeping first occurrences (model of
collecting into a `HashSet`, which the source then iterates; the set
itself is unordered, the model fixes first-occurrence order). -/
def dedupStrs : List Str → List Str
  | [] => []
  | x :: rest => x :: (dedupStrs rest).filter (· ≠ x)

/-- `remove_obsolete_shims` (`src/core/reshim.rs` lines 125-142): the
shim names from `plugin_shims` minus the executable basenames for this
version, each handed to `remove_shim_for_version`. -/
def remove_obsolete_shims (w : World) (plugin_name full_version : Str) :
    M Unit := do
  let shims ← plugin_shims w plugin_name full_version
  let shim_names := dedupStrs (shims.map fun p => p.getLast?.getD (pathToStr p))
  let execs ← plugin_executables w plugin_name full_version
  let exec_names := dedupStrs (execs.map fun p => p.getLast?.getD (pathToStr p))
  (shim_names.filter fun n => ¬ exec_names.contains n).forM
    (remove_shim_for_version w plugin_name full_version)

/-- The per-version body of the all-versions branch of `reshim_plugin`
(`src/core/reshim.rs` lines 44-75). -/
def reshim_one_installed_version (w : World) (plugin_name version : Str) :
    M Unit := do
  match (strToPath version).getLast? with
  | none => M.throw ("called Option::unwrap on a None value".data)
  | some name => do
    let full_version_name := replaceAll name ("ref-".data) ("ref:".data)
    asdf_run_hook w ("pre_asdf_reshim_".data ++ plugin_name) [full_version_name]
    generate_shims_for_version w plugin_name full_version_name
    remove_obsolete_shims w plugin_name full_version_name
    asdf_run_hook w ("post_asdf_reshim_".data ++ plugin_name) [full_version_name]

/-- `reshim_plugin` (`src/core/reshim.rs` lines 16-79). -/
def reshim_plugin (w : World) (plugin_name : Str) (full_version : Option Str) :
    M Unit := do
  plugin_exists w plugin_name
  ensure_shims_dir w
  match full_version with
  | some fv => do
    asdf_run_hook w ("pre_asdf_reshim_".data ++ plugin_name) [fv]
    generate_shims_for_version w plugin_name fv
    asdf_run_hook w ("post_asdf_reshim_".data ++ plugin_name) [fv]
  | none => do
    let _pip ← M.liftE (plugin_installs_path w plugin_name)
    let versions ← list_installed_versions w plugin_name
    versions.forM (reshim_one_installed_version w plugin_name)

/-! ## Install (src/core/installs.rs) -/

/-- `install_tool_version` (`src/core/installs.rs` lines 71-191; the copy
in `src/core/install.rs` lines 40-162 is line-for-line the same): checks,
optional download, `fs::create_dir(install_path)`, the `install` callback,
download cleanup, reshim, post-install hook.  Note the failure path: a
failing `install` callback propagates its error with no removal of the
just-created install directory. -/
def install_tool_version (w : World) (plugin_name full_version : Str)
    (keep_download : Bool) : M Unit := do
  let pp ← M.liftE (plugin_path w plugin_name)
  plugin_exists w plugin_name
  if full_version = "system".data then
    pure ()
  else do
    let tool_version ← M.liftE (toolVersionFromStr full_version)
    let install_type := tool_version.installType
    let version ← do
      match ← toolVersionInstallVersion w plugin_name tool_version with
      | some v => pure v
      | none => M.throw ("called Option::unwrap on a None value".data)
    let ip ← install_path w plugin_name install_type version
    let dp? ← download_path w plugin_name install_type version
    let fs ← M.get
    if fs.isDir ip then
      pure ()
    else do
      let download_bin := pp ++ ["bin".data, "download".data]
      if fs.isFile download_bin then do
        let dp ← do
          match dp? with
          | some d => pure d
          | none => M.throw ("called Option::unwrap on a None value".data)
        let fs ← M.get
        match fs.createDir dp with
        | .ok fs' => M.set fs'
        | .error e => M.throw e
        asdf_run_hook w ("pre_asdf_install_".data ++ plugin_name) [full_version]
        let _ ← M.liftE (call w (pathToStr download_bin) [])
        pure ()
      else
        pure ()
      let fs ← M.get
      match fs.createDir ip with
      | .ok fs' => M.set fs'
      | .error e => M.throw e
      let install_bin := pp ++ ["bin".data, "install".data]
      let dp ← do
        match dp? with
        | some d => pure d
        | none => M.throw ("called Option::unwrap on a None value".data)
      let _ ← M.liftE (call w (pathToStr install_bin) [])
      let always_keep_download := (← asdf_config_value w ("always_keep_download".data)).getD []
      let fs ← M.get
      if ¬ keep_download ∧ always_keep_download ≠ "yes".data ∧ fs.isDir dp then
        M.set (fs.removeDirAll dp)
      else
        pure ()
      reshim_plugin w plugin_name (some full_version)
      asdf_run_hook w ("post_asdf_install_".data ++ plugin_name) [full_version]

/-! ## Concrete worlds used by the witnesses and counterexamples -/

/-- A home directory `/home/u`. -/
def cHome : FsPath := ["home".data, "u".data]

/-- The data directory `/home/u/.asdf`. -/
def cData : FsPath := cHome ++ [".asdf".data]

/-- The plugin directory of a plugin named `p`. -/
def cPlugin : FsPath := cData ++ ["plugins".data, "p".data]

/-- The shims directory. -/
def cShims : FsPath := cData ++ ["shims".data]

/-- A filesystem with the `p` plugin directory and the shims directory. -/
def cFs : Fs :=
  { dirs := (cPlugin.inits ++ cShims.inits).eraseDups
    files := []
    execs := [] }

/-- A world whose every subprocess fails with stderr `boom`. -/
def cWorld : World :=
  { env := []
    home := some cHome
    cwd := cHome
    rawCall := fun _ _ => (false, [], "boom".data)
    ncpus := 4
    currentExe := "/usr/bin/asdf".data }

/-- `cWorld` with `ASDF_P_VERSION=0.2.0` exported. -/
def cWorldEnv : World :=
  { cWorld with env := [("ASDF_P_VERSION".data, "0.2.0".data)] }

/-- Shim file `a`, claimed by plugin `p` version `1.0.0`. -/
def cShimA : FsPath := cShims ++ ["a".data]

/-- Shim file `b`, claimed only by an unrelated plugin `q`. -/
def cShimB : FsPath := cShims ++ ["b".data]

/-- The contents of shim `b`: no `# asdf-plugin: p 1.0.0` line. -/
def cShimBContents : Str :=
  "#!/usr/bin/env bash\n# asdf-plugin: q 9.9.9\nexec x exec \"b\" \"$@\"\n".data

/-- A filesystem with the two shim files `a` and `b`. -/
def cFsShims : Fs :=
  { cFs with
    files :=
      [(cShimA, ("#!/usr/bin/env bash\n# asdf-plugin: p 1.0.0\nexec x exec \"a\" \"$@\"\n".data)),
       (cShimB, cShimBContents)] }

/-- An executable `x` inside the install tree of `p 1.0.0`. -/
def cExe : FsPath :=
  cData ++ ["installs".data, "p".data, "1.0.0".data, "bin".data, "x".data]

/-- A filesystem where only `cExe` is executable and no shim exists yet. -/
def cFsExe : Fs := { cFs with execs := [cExe] }

/-- The shim path that `write_shim_script` writes for `cExe`. -/
def cShimX : FsPath := cShims ++ ["x".data]

/-- A world resolving plugin `p` to `path:/x` through the environment. -/
def cWorldSel : World :=
  { cWorld with env := [("ASDF_P_VERSION".data, "path:/x".data)] }

/-- A filesystem with the executable shim `a` claiming only `p 1.0.0`. -/
def cFsSel : Fs :=
  { cFs with
    files :=
      [(cShimA, ("#!/usr/bin/env bash\n# asdf-plugin: p 1.0.0\nexec x exec \"a\" \"$@\"\n".data))]
    execs := [cShimA] }

/-- A legacy version file `/home/u/.p-version`. -/
def cLegacy : FsPath := cHome ++ [".p-version".data]

/-- A filesystem with the legacy file holding `1.2.3` plus a trailing
newline. -/
def cFsLegacy : Fs := { cFs with files := [(cLegacy, "1.2.3\n".data)] }

/-- The install path of `p 1.0.0` in `cWorld`. -/
def cInstallPath : FsPath :=
  joinStr (joinStr (cData ++ ["installs".data]) ("p".data)) ("1.0.0".data)

/-- The filesystem state after `install_tool_version` has created the
per-plugin installs and downloads directories in `cFs`. -/
def cFs₂ : Fs :=
  (cFs.createDirAll (joinStr (cData ++ ["installs".data]) ("p".data))).createDirAll
    (joinStr (cData ++ ["downloads".data]) ("p".data))

/-- The two parse results of `.tool-versions` documents that list the same
tools in different orders, for C3. -/
def cDocAB : Str := "a 1\nb 2".data

/-- The same two lines in the opposite order. -/
def cDocBA : Str := "b 2\na 1".data

/-- The pairs of a document with a duplicate `a` line, for the C3
witness. -/
def cPairsDup : List (Str × List ToolVersion) :=
  [("a".data, [.Version ("1".data)]),
   ("a".data, [.Version ("2".data)]),
   ("b".data, [.Version ("3".data)])]

/-! ## General lemmas about the string and map primitives -/

theorem strStartsWith_append (p t : Str) : strStartsWith (p ++ t) p = true := by
  induction p with
  | nil => cases t <;> rfl
  | cons c cs ih => simp [strStartsWith, ih]

theorem strStartsWith_length {s p : Str} (h : strStartsWith s p = true) :
    p.length ≤ s.length := by
  induction p generalizing s with
  | nil => simp
  | cons c cs ih =>
    cases s with
    | nil => simp [strStartsWith] at h
    | cons a as =>
      simp only [strStartsWith, Bool.and_eq_true, decide_eq_true_eq] at h
      have := ih h.2
      simp only [List.length_cons]
      omega

theorem contains_append_cons (l t : Str) (c : Char) :
    (l ++ c :: t).contains c = true := by
  induction l with
  | nil => simp [List.contains, List.elem_cons_self]
  | cons a as ih => simp_all [List.contains, List.elem_cons]

theorem takeWhile_neq_append (l t : Str) (c : Char) (h : c ∉ l) :
    (l ++ c :: t).takeWhile (· ≠ c) = l := by
  induction l with
  | nil => simp [List.takeWhile]
  | cons a as ih =>
    simp only [List.mem_cons, not_or] at h
    simp [List.takeWhile_cons, Ne.symm h.1]
    simpa using ih h.2

theorem dropWhile_neq_append (l t : Str) (c : Char) (h : c ∉ l) :
    (l ++ c :: t).dropWhile (· ≠ c) = c :: t := by
  induction l with
  | nil => simp [List.dropWhile]
  | cons a as ih =>
    simp only [List.mem_cons, not_or] at h
    simp [List.dropWhile_cons, Ne.symm h.1]
    simpa using ih h.2

theorem splitOnce_append (name rest : Str) (h : ' ' ∉ name) :
    splitOnce (name ++ ' ' :: rest) ' ' = some (name, rest) := by
  unfold splitOnce
  rw [if_pos (contains_append_cons name rest ' '),
    takeWhile_neq_append name rest ' ' h,
    dropWhile_neq_append name rest ' ' h]
  rfl

theorem splitChar_ne_nil (s : Str) (sep : Char) : splitChar s sep ≠ [] := by
  cases s with
  | nil => simp [splitChar]
  | cons c rest =>
    simp only [splitChar]
    cases h : splitChar rest sep with
    | nil => simp
    | cons seg segs =>
      by_cases hc : c = sep <;> simp [hc]

theorem splitChar_sepfree_append (u t : Str) (sep : Char)
    (h : ∀ c ∈ u, ¬ c = sep) :
    splitChar (u ++ sep :: t) sep = u :: splitChar t sep := by
  induction u with
  | nil =>
    simp only [List.nil_append, splitChar]
    cases ht : splitChar t sep with
    | nil => exact absurd ht (splitChar_ne_nil t sep)
    | cons seg segs => simp
  | cons u₀ us ih =>
    have hu₀ : ¬ u₀ = sep := h u₀ (List.mem_cons_self u₀ us)
    have hrest : ∀ c ∈ us, ¬ c = sep := fun c hc => h c (List.mem_cons_of_mem _ hc)
    simp only [List.cons_append, splitChar, List.append_eq]
    rw [ih hrest]
    simp [hu₀]

theorem findSubstrIdx_append_isSome (x pat y : Str) :
    (findSubstrIdx pat (x ++ pat ++ y)).isSome = true := by
  induction x with
  | nil =>
    cases hpy : pat ++ y with
    | nil =>
      have hp : pat = [] := by
        cases pat <;> simp_all
      have hy : y = [] := by
        rw [hp] at hpy
        simpa using hpy
      simp [hp, hy, findSubstrIdx]
    | cons c rest =>
      simp only [List.nil_append, hpy, findSubstrIdx]
      rw [← hpy, strStartsWith_append]
      simp
  | cons c cs ih =>
    simp only [List.cons_append, findSubstrIdx]
    by_cases h : strStartsWith (cs ++ pat ++ y) pat ∧ True
    · split <;> simp_all
    · split <;> simp_all

theorem findSubstrIdx_bound {pat s : Str} {i : Nat}
    (h : findSubstrIdx pat s = some i) : i + pat.length ≤ s.length := by
  induction s generalizing i with
  | nil =>
    simp only [findSubstrIdx] at h
    by_cases hp : pat.isEmpty
    · rw [if_pos hp] at h
      cases h
      have hpe : pat = [] := by
        cases pat with
        | nil => rfl
        | cons a b => simp [List.isEmpty] at hp
      simp [hpe]
    · rw [if_neg hp] at h
      cases h
  | cons c rest ih =>
    simp only [findSubstrIdx] at h
    by_cases hs : strStartsWith (c :: rest) pat = true
    · rw [if_pos hs] at h
      cases h
      have := strStartsWith_length hs
      omega
    · rw [if_neg hs] at h
      cases hr : findSubstrIdx pat rest with
      | none => rw [hr] at h; cases h
      | some j =>
        rw [hr] at h
        simp only [Option.map_some'] at h
        cases h
        have := ih hr
        simp only [List.length_cons]
        omega

theorem replaceFirst_length {s pat repl : Str} {i : Nat}
    (h : findSubstrIdx pat s = some i) :
    (replaceFirst s pat repl).length = s.length - pat.length + repl.length := by
  have hb := findSubstrIdx_bound h
  simp only [replaceFirst, h, List.length_append, List.length_take, List.length_drop]
  omega

theorem mapLookup_nil {α : Type} (k₀ : Str) :
    mapLookup ([] : List (Str × α)) k₀ = none := rfl

theorem mapLookup_cons {α : Type} (k' : Str) (v' : α) (rest : List (Str × α))
    (k₀ : Str) :
    mapLookup ((k', v') :: rest) k₀ =
      if k₀ = k' then some v' else mapLookup rest k₀ := by
  by_cases h : k₀ = k'
  · subst h
    simp [mapLookup, List.find?_cons_of_pos]
  · rw [if_neg h]
    unfold mapLookup
    rw [List.find?_cons_of_neg]
    simp [Ne.symm h]

theorem mapLookup_mapInsert {α : Type} (m : List (Str × α)) (k k₀ : Str) (v : α) :
    mapLookup (mapInsert m k v) k₀ = if k₀ = k then some v else mapLookup m k₀ := by
  induction m with
  | nil => simp [mapInsert, mapLookup_cons, mapLookup_nil]
  | cons e rest ih =>
    obtain ⟨k', v'⟩ := e
    by_cases h1 : k = k'
    · subst h1
      by_cases h2 : k₀ = k <;> simp [mapInsert, mapLookup_cons, h2]
    · by_cases hle : strLe k k'
      · simp [mapInsert, h1, hle, mapLookup_cons]
      · by_cases h2 : k₀ = k'
        · subst h2
          have : ¬ k₀ = k := fun hh => h1 (hh ▸ rfl)
          simp [mapInsert, h1, hle, mapLookup_cons, this]
        · simp [mapInsert, h1, hle, mapLookup_cons, h2, ih]

theorem mapLookup_foldl {α : Type} (ps : List (Str × α)) (m : List (Str × α))
    (k : Str) :
    mapLookup (ps.foldl (fun acc p => mapInsert acc p.1 p.2) m) k =
      match ((ps.filter fun e => e.1 = k).getLast?) with
      | some e => some e.2
      | none => mapLookup m k := by
  induction ps generalizing m with
  | nil => simp
  | cons p rest ih =>
    obtain ⟨pk, pv⟩ := p
    simp only [List.foldl_cons, ih (mapInsert m pk pv)]
    by_cases h : pk = k
    · subst h
      simp only [List.filter_cons, decide_eq_true_eq, if_true]
      cases hl : (rest.filter fun e => e.1 = pk).getLast? with
      | none =>
        have hnil : (rest.filter fun e => e.1 = pk) = [] := by
          cases hf : (rest.filter fun e => e.1 = pk) with
          | nil => rfl
          | cons a b => rw [hf] at hl; simp [List.getLast?_cons] at hl
        simp [hl, hnil, List.getLast?_cons, mapLookup_mapInsert]
      | some e =>
        have : ((pk, pv) :: (rest.filter fun x => x.1 = pk)).getLast? = some e := by
          cases hf : (rest.filter fun x => x.1 = pk) with
          | nil => rw [hf] at hl; simp at hl
          | cons a b => rw [List.getLast?_cons_cons, ← hf]; exact hl
        simp [hl, this]
    · simp only [List.filter_cons, decide_eq_true_eq]
      rw [if_neg h]
      cases hl : (rest.filter fun e => e.1 = k).getLast? with
      | none => simp [hl, mapLookup_mapInsert, Ne.symm h]
      | some e => simp [hl]

/-! ## Lemmas about the filesystem model and the dispatcher loops -/

theorem readFile_writeFile_self (fs : Fs) (p : FsPath) (c : Str) :
    (fs.writeFile p c).readFile p = some c := by
  simp [Fs.writeFile, Fs.readFile, List.find?]

theorem readFile_setExec (fs : Fs) (p q : FsPath) :
    (fs.setExec q).readFile p = fs.readFile p := rfl

theorem isExecutable_setExec_of (fs : Fs) (p q : FsPath)
    (h : fs.isExecutable p = true) : (fs.setExec q).isExecutable p = true := by
  simp [Fs.isExecutable, Fs.setExec] at h ⊢
  exact Or.inr h

theorem isExecutable_writeFile (fs : Fs) (p : FsPath) (c : Str) (q : FsPath) :
    (fs.writeFile p c).isExecutable q = fs.isExecutable q := rfl

theorem shim_plugin_versions_state (w : World) (e : Str) (fs : Fs) :
    (shim_plugin_versions w e fs).2 = fs := by
  rw [shim_plugin_versions]
  cases hsp : shims_path w with
  | error err =>
    simp [M.run_bind, M.liftE, M.run_throw]
  | ok sp =>
    simp only [M.run_bind, M.liftE, M.run_pure, M.run_get]
    split
    · cases hread : fs.readFile (joinStr sp ((List.getLast? (strToPath e)).getD e)) with
      | some contents => simp [hread, M.run_pure]
      | none => simp [hread, M.run_throw]
    · simp [M.run_throw]

theorem selectPairs_sound (plugin tok : Str) (l : List Str) (r : Str)
    (h : selectPairs plugin tok l = .ok (some r)) :
    r = plugin ++ ' ' :: tok ∧
      ∃ pv ∈ l, ∃ a b rest, splitChar pv ' ' = a :: b :: rest ∧ plugin = a ∧
        (tok = b ∨ strStartsWith tok ("path:".data) = true) := by
  induction l with
  | nil => simp [selectPairs] at h
  | cons pv rest ih =>
    cases hs : splitChar pv ' ' with
    | nil => simp only [selectPairs, hs] at h; simp at h
    | cons a tl =>
      cases tl with
      | nil => simp only [selectPairs, hs] at h; simp at h
      | cons b tl' =>
        simp only [selectPairs, hs] at h
        by_cases hc : plugin = a ∧ (tok = b ∨ strStartsWith tok ("path:".data) = true)
        · rw [if_pos hc] at h
          simp only [Except.ok.injEq, Option.some.injEq] at h
          subst h
          exact ⟨rfl, pv, List.mem_cons_self _ _, a, b, tl', hs, hc.1, hc.2⟩
        · rw [if_neg hc] at h
          obtain ⟨hr, pv', hmem, rest'⟩ := ih h
          exact ⟨hr, pv', List.mem_cons_of_mem _ hmem, rest'⟩

theorem selectTokens_sound (plugin : Str) (toks shim_vs : List Str) (r : Str)
    (h : selectTokens plugin toks shim_vs = .ok (some r)) :
    ∃ tok ∈ toks, selectPairs plugin tok shim_vs = .ok (some r) := by
  induction toks with
  | nil => simp [selectTokens] at h
  | cons tok rest ih =>
    cases hp : selectPairs plugin tok shim_vs with
    | error e => simp only [selectTokens, hp] at h; simp at h
    | ok o =>
      cases o with
      | some r' =>
        simp only [selectTokens, hp, Except.ok.injEq, Option.some.injEq] at h
        subst h
        exact ⟨tok, List.mem_cons_self _ _, hp⟩
      | none =>
        simp only [selectTokens, hp] at h
        obtain ⟨tok', hmem, hp'⟩ := ih h
        exact ⟨tok', List.mem_cons_of_mem _ hmem, hp'⟩

theorem selectLoop_sound (w : World) (sv : List Str) (ps : List Str)
    (fs fs' : Fs) (r : Str)
    (h : selectLoop w sv ps fs = (.ok (some r), fs')) :
    ∃ p ∈ ps, ∃ toks, selectTokens p toks sv = .ok (some r) := by
  induction ps generalizing fs with
  | nil =>
    simp [selectLoop, M.run_pure] at h
  | cons p rest ih =>
    rw [selectLoop, M.run_bind] at h
    cases hf : find_versions w p w.cwd fs with
    | mk res fs₁ =>
      cases res with
      | error e => simp only [hf] at h; simp at h
      | ok o =>
        cases o with
        | none =>
          simp only [hf] at h
          obtain ⟨p', hmem, hp'⟩ := ih fs₁ h
          exact ⟨p', List.mem_cons_of_mem _ hmem, hp'⟩
        | some spec =>
          simp only [hf] at h
          cases hst : selectTokens p (splitChar spec.version ' ') sv with
          | error e =>
            simp only [hst, M.run_throw, Prod.mk.injEq] at h
            simp at h
          | ok o' =>
            cases o' with
            | some r' =>
              simp only [hst, M.run_pure, Prod.mk.injEq, Except.ok.injEq,
                Option.some.injEq] at h
              obtain ⟨rfl, _⟩ := h
              exact ⟨p, List.mem_cons_self _ _, _, hst⟩
            | none =>
              simp only [hst] at h
              obtain ⟨p', hmem, hp'⟩ := ih fs₁ h
              exact ⟨p', List.mem_cons_of_mem _ hmem, hp'⟩

/-! ## The claims -/

set_option maxRecDepth 100000

/-- C1, counterexample: the specifier parser applied to the token
`path:/a b` does NOT return the `Path` variant carrying `/a b` — it
returns `Version "path:/a b"`, because `ToolVersion::from_str` has no
`path:` branch. -/
theorem C1_counterexample :
    toolVersionFromStr ("path:/a b".data) = .ok (.Version ("path:/a b".data)) ∧
    toolVersionFromStr ("path:/a b".data) ≠ .ok (.Path (strToPath ("/a b".data))) := by
  decide

/-- C1, amended: the specifier parser, applied to any token `path:X`,
returns the `Version` (literal) variant carrying the whole token
`path:X` verbatim (`X` may contain spaces); and in the `.tool-versions`
line parser, a rest-of-line beginning with `path:` is parsed as exactly
one specifier consuming the remainder of the line — namely
`Version "path:X"`, not `Path X`. -/
theorem C1_path_token_amended :
    (∀ x : Str, toolVersionFromStr ('p' :: 'a' :: 't' :: 'h' :: ':' :: x) =
      .ok (.Version ('p' :: 'a' :: 't' :: 'h' :: ':' :: x))) ∧
    (∀ (name x : Str), ' ' ∉ name →
      toolVersionsParseLine (name ++ ' ' :: ('p' :: 'a' :: 't' :: 'h' :: ':' :: x)) =
        .ok (name, [.Version ('p' :: 'a' :: 't' :: 'h' :: ':' :: x)])) := by
  constructor
  · intro x
    simp [toolVersionFromStr, strStartsWith, String.data]
  · intro name x h
    have h1 : toolVersionFromStr ('p' :: 'a' :: 't' :: 'h' :: ':' :: x) =
        .ok (.Version ('p' :: 'a' :: 't' :: 'h' :: ':' :: x)) := by
      simp [toolVersionFromStr, strStartsWith, String.data]
    have h2 : strStartsWith ('p' :: 'a' :: 't' :: 'h' :: ':' :: x) ("path:".data) = true := by
      have := strStartsWith_append ("path:".data) x
      simpa using this
    simp [toolVersionsParseLine, splitOnce_append name _ h, h2, h1, Except.map]

/-- C1, witness: the amended statement at the concrete line
`dummy path:/a b`. -/
theorem C1_path_token_amended_witness :
    (' ' ∉ "dummy".data) ∧
    toolVersionFromStr ('p' :: 'a' :: 't' :: 'h' :: ':' :: "/a b".data) =
      .ok (.Version ('p' :: 'a' :: 't' :: 'h' :: ':' :: "/a b".data)) ∧
    toolVersionsParseLine ("dummy".data ++ ' ' :: ('p' :: 'a' :: 't' :: 'h' :: ':' :: "/a b".data)) =
      .ok ("dummy".data, [.Version ('p' :: 'a' :: 't' :: 'h' :: ':' :: "/a b".data)]) :=
  ⟨by decide, C1_path_token_amended.1 ("/a b".data),
    C1_path_token_amended.2 ("dummy".data) ("/a b".data) (by decide)⟩

/-- C2: whenever the environment variable `ASDF_<TOOL>_VERSION` (tool
uppercased) is set to `v`, `find_versions` returns `v` with source
`EnvVar`, for every filesystem (hence regardless of the contents of any
`.tool-versions` or legacy file) and every search directory, leaving the
filesystem untouched. -/
theorem C2_env_override (w : World) (plugin : Str) (sp : FsPath) (fs : Fs)
    (v : Str) (h : w.getEnv (env_var_for_plugin plugin) = some v) :
    find_versions w plugin sp fs =
      (.ok (some ⟨v, .EnvVar (env_var_for_plugin plugin)⟩), fs) := by
  simp [find_versions, version_from_env, h, M.run_pure]

/-- C2, witness: with `ASDF_P_VERSION=0.2.0` exported, plugin `p`
resolves to `0.2.0` from the environment. -/
theorem C2_env_override_witness :
    cWorldEnv.getEnv (env_var_for_plugin ("p".data)) = some ("0.2.0".data) ∧
    find_versions cWorldEnv ("p".data) cHome cFs =
      (.ok (some ⟨"0.2.0".data, .EnvVar (env_var_for_plugin ("p".data))⟩), cFs) :=
  ⟨by decide, C2_env_override cWorldEnv ("p".data) cHome cFs ("0.2.0".data) (by decide)⟩

/-- C3, counterexample: two `.tool-versions` documents whose tools first
appear in different orders parse to EQUAL values, so the parse result (a
`HashMap` in the source) cannot preserve the insertion order of tools:
no function of the result can return `[a, b]` for the first document and
`[b, a]` for the second. -/
theorem C3_counterexample :
    toolVersionsFromStr cDocAB = toolVersionsFromStr cDocBA ∧
    firstAppearanceOrder cDocAB ≠ firstAppearanceOrder cDocBA := by
  decide

/-- C3, amended: parsing a `.tool-versions` document yields an unordered
tool-to-specifiers mapping (the `HashMap` does not record insertion
order); when several lines declare the same tool, the mapping holds the
LAST such line's specifiers (last wins): looking a tool up returns
exactly the value of the last parsed line declaring it. -/
theorem C3_last_wins (doc : Str) (ps : List (Str × List ToolVersion)) (k : Str)
    (h : toolVersionsPairs doc = .ok ps) :
    toolVersionsFromStr doc = .ok (hashMapOfList ps) ∧
      mapLookup (hashMapOfList ps) k =
        ((ps.filter fun e => e.1 = k).getLast?).map (·.2) := by
  constructor
  · simp [toolVersionsFromStr, h, Except.map]
  · rw [hashMapOfList, mapLookup_foldl]
    cases hl : (ps.filter fun e => e.1 = k).getLast? <;> simp [hl, mapLookup_nil]

/-- C3, witness: the document `a 1\na 2\nb 3` parses with the later
`a 2` line overriding `a 1`. -/
theorem C3_last_wins_witness :
    toolVersionsPairs ("a 1\na 2\nb 3".data) = .ok cPairsDup ∧
    (toolVersionsFromStr ("a 1\na 2\nb 3".data) = .ok (hashMapOfList cPairsDup) ∧
      mapLookup (hashMapOfList cPairsDup) ("a".data) =
        ((cPairsDup.filter fun e => e.1 = "a".data).getLast?).map (·.2)) :=
  ⟨by decide, C3_last_wins ("a 1\na 2\nb 3".data) cPairsDup ("a".data) (by decide)⟩

/-- C4, counterexample: in `cWorld` (where the `install` callback exits
non-zero) installing `p 1.0.0` fails with the callback's error — but the
newly created install directory REMAINS on disk, contradicting the
claimed best-effort removal. -/
theorem C4_counterexample :
    (install_tool_version cWorld ("p".data) ("1.0.0".data) false cFs).1 =
      .error ("\nboom\n".data) ∧
    (install_tool_version cWorld ("p".data) ("1.0.0".data) false cFs).2.isDir
      cInstallPath = true := by
  decide

/-- C4, amended: during install of one (tool, version), after the install
directory has been created, if the plugin's install callback exits
non-zero then the operation fails with the callback's error, but the
newly created install directory is NOT removed — it remains on disk.
(Stated for a `version`-type install with no `download` callback, the
failure path common to both copies of `install_tool_version`.) -/
theorem C4_install_failure_amended (w : World) (fs fs₂ : Fs)
    (plugin fv v out err : Str) (dd pp ip : FsPath)
    (hdd : asdf_data_dir w = .ok dd)
    (hplug : plugin ≠ [])
    (hpp : pp = joinStr (dd ++ ["plugins".data]) plugin)
    (hpdir : fs.isDir pp = true)
    (hparse : toolVersionFromStr fv = .ok (.Version v))
    (hip : ip = joinStr (joinStr (dd ++ ["installs".data]) plugin) v)
    (hfs₂ : fs₂ = (fs.createDirAll (joinStr (dd ++ ["installs".data]) plugin)).createDirAll
      (joinStr (dd ++ ["downloads".data]) plugin))
    (hnotinst : fs₂.isDir ip = false)
    (hparent : fs₂.isDir ip.dropLast = true)
    (hnodl : fs₂.isFile (pp ++ ["bin".data, "download".data]) = false)
    (hcall : w.rawCall (pathToStr (pp ++ ["bin".data, "install".data])) [] = (false, out, err)) :
    install_tool_version w plugin fv false fs =
      (.error (out ++ '\n' :: err ++ ['\n']), { fs₂ with dirs := ip :: fs₂.dirs }) ∧
    ({ fs₂ with dirs := ip :: fs₂.dirs } : Fs).isDir ip = true := by
  have hsys : ¬ fv = "system".data := by
    intro heq
    rw [heq] at hparse
    simp [toolVersionFromStr] at hparse
  subst hpp hip hfs₂
  constructor
  · cases plugin with
    | nil => exact absurd rfl hplug
    | cons c cs =>
      simp only [install_tool_version, plugin_exists, plugin_path, plugins_path,
        install_path, download_path, plugin_installs_path, installs_path,
        plugin_downloads_path, downloads_path, hdd, Except.map,
        M.run_bind, M.liftE, M.run_pure, M.run_get, M.run_set, M.run_throw,
        List.isEmpty, hparse, ToolVersion.installType,
        toolVersionInstallVersion, if_neg hsys, Fs.createDir, call]
        at hpdir hnotinst hparent hnodl hcall ⊢
      simp only [hpdir, hnotinst, hparent, hnodl, hcall, Bool.not_true,
        Bool.false_eq_true, if_false, if_true, M.run_bind, M.liftE, M.run_pure,
        M.run_get, M.run_set, M.run_throw]
  · simp [Fs.isDir]

/-- C4, witness: the amended statement at the concrete world `cWorld`,
plugin `p`, version `1.0.0`. -/
theorem C4_install_failure_amended_witness :
    cFs.isDir (joinStr (cData ++ ["plugins".data]) ("p".data)) = true ∧
    cFs₂.isDir (joinStr (joinStr (cData ++ ["installs".data]) ("p".data)) ("1.0.0".data)) = false ∧
    cWorld.rawCall (pathToStr ((joinStr (cData ++ ["plugins".data]) ("p".data)) ++
      ["bin".data, "install".data])) [] = (false, [], "boom".data) ∧
    (install_tool_version cWorld ("p".data) ("1.0.0".data) false cFs =
      (.error ([] ++ '\n' :: "boom".data ++ ['\n']),
        { cFs₂ with dirs :=
          (joinStr (joinStr (cData ++ ["installs".data]) ("p".data)) ("1.0.0".data)) :: cFs₂.dirs }) ∧
     ({ cFs₂ with dirs :=
          (joinStr (joinStr (cData ++ ["installs".data]) ("p".data)) ("1.0.0".data)) :: cFs₂.dirs } : Fs).isDir
        (joinStr (joinStr (cData ++ ["installs".data]) ("p".data)) ("1.0.0".data)) = true) :=
  ⟨by decide, by decide, by decide,
    C4_install_failure_amended cWorld cFs cFs₂ ("p".data) ("1.0.0".data) ("1.0.0".data)
      [] ("boom".data) cData _ _ (by decide) (by decide) rfl (by decide) (by decide)
      rfl rfl (by decide) (by decide) (by decide) (by decide)⟩

/-- C5: the set of candidate obsolete shims is NOT the set of shim files
containing the `# asdf-plugin: p 1.0.0` line: `plugin_shims` computes
`read_to_string(path).map(|c| c.contains(...)).is_ok()`, which discards
the `contains` result, so it returns every readable file in the shims
directory — here both `a` and `b`, although `b` does not contain the
line.  The spec-modelled filter (`plugin_shims_documented`) returns only
`a`. -/
theorem C5_plugin_shims_bug :
    plugin_shims cWorld ("p".data) ("1.0.0".data) cFsShims = (.ok [cShimA, cShimB], cFsShims) ∧
    containsSub cShimBContents ("# asdf-plugin: p 1.0.0".data) = false ∧
    plugin_shims_documented cWorld ("p".data) ("1.0.0".data) cFsShims =
      (.ok [cShimA], cFsShims) := by
  decide

/-- C6, counterexample: writing the shim for `(p, 1.0.0)` twice does NOT
leave the file equal to writing it once — the second write inserts a
second copy of the metadata line (the source has no already-present
check). -/
theorem C6_counterexample :
    (write_shim_script cWorld ("p".data) ("1.0.0".data) cExe cFsExe).1 = .ok () ∧
    (write_shim_script cWorld ("p".data) ("1.0.0".data) cExe cFsExe).2.readFile cShimX =
      some (freshShimContents cWorld ("p".data) ("1.0.0".data) ("x".data)) ∧
    (write_shim_script cWorld ("p".data) ("1.0.0".data) cExe
        (write_shim_script cWorld ("p".data) ("1.0.0".data) cExe cFsExe).2).2.readFile cShimX ≠
      (write_shim_script cWorld ("p".data) ("1.0.0".data) cExe cFsExe).2.readFile cShimX := by
  decide

/-- C6, amended: writing a shim for `(tool, full_version)` when the shim
file already exists inserts the metadata line above the first `exec `
occurrence UNCONDITIONALLY — even when the exact line is already present.
Regenerating twice therefore differs from regenerating once: starting
from no shim, the first write produces the fresh shim and the second
write produces a strictly longer file (a duplicate metadata line). -/
theorem C6_reshim_duplicates (w : World) (plugin version : Str)
    (exePath : FsPath) (nm : Str) (dd : FsPath) (fs : Fs)
    (hexec : fs.isExecutable exePath = true)
    (hnm : exePath.getLast? = some nm)
    (hdd : asdf_data_dir w = .ok dd)
    (hnofile : fs.readFile (joinStr (dd ++ ["shims".data]) nm) = none) :
    ∃ fs₁ fs₂ c₂,
      write_shim_script w plugin version exePath fs = (.ok (), fs₁) ∧
      fs₁.readFile (joinStr (dd ++ ["shims".data]) nm) =
        some (freshShimContents w plugin version nm) ∧
      write_shim_script w plugin version exePath fs₁ = (.ok (), fs₂) ∧
      fs₂.readFile (joinStr (dd ++ ["shims".data]) nm) = some c₂ ∧
      c₂ ≠ freshShimContents w plugin version nm := by
  set sp := joinStr (dd ++ ["shims".data]) nm with hsp
  set fresh := freshShimContents w plugin version nm with hfresh
  set repl := "# asdf-plugin: ".data ++ plugin ++ ' ' :: version ++ '\n' :: "exec ".data with hrepl
  set c₂ := replaceFirst fresh ("exec ".data) repl with hc2
  have hrun1 : write_shim_script w plugin version exePath fs =
      (.ok (), (fs.writeFile sp fresh).setExec sp) := by
    simp [write_shim_script, hexec, hnm, hdd, hnofile, M.run_bind, M.run_get,
      M.run_liftE_ok, M.run_set, M.run_pure]
  set fs₁ := (fs.writeFile sp fresh).setExec sp with hfs1
  have hread1 : fs₁.readFile sp = some fresh := by
    rw [hfs1, readFile_setExec, readFile_writeFile_self]
  have hexec1 : fs₁.isExecutable exePath = true := by
    rw [hfs1]
    exact isExecutable_setExec_of _ _ _ ((isExecutable_writeFile fs sp fresh exePath) ▸ hexec)
  have hrun2 : write_shim_script w plugin version exePath fs₁ =
      (.ok (), (fs₁.writeFile sp c₂).setExec sp) := by
    simp [write_shim_script, hexec1, hnm, hdd, hread1, M.run_bind, M.run_get,
      M.run_liftE_ok, M.run_set, M.run_pure, hc2, hrepl]
  have hread2 : ((fs₁.writeFile sp c₂).setExec sp).readFile sp = some c₂ := by
    rw [readFile_setExec, readFile_writeFile_self]
  have hdecomp : fresh =
      ("#!/usr/bin/env bash\n# asdf-plugin: ".data ++ plugin ++ ' ' :: version ++ ['\n']) ++
        ("exec ".data) ++
        (w.currentExe ++ " exec \"".data ++ nm ++ "\" \"$@\"\n".data) := by
    simp [hfresh, freshShimContents]
  have hsome : (findSubstrIdx ("exec ".data) fresh).isSome = true := by
    rw [hdecomp]
    exact findSubstrIdx_append_isSome _ _ _
  obtain ⟨i, hi⟩ := Option.isSome_iff_exists.mp hsome
  have hbound := findSubstrIdx_bound hi
  have h5 : ("exec ".data).length = 5 := rfl
  have hlen : c₂.length = fresh.length - 5 + repl.length := by
    rw [hc2, replaceFirst_length hi, h5]
  have hne : c₂ ≠ fresh := by
    intro he
    have : c₂.length = fresh.length := by rw [he]
    have hr5 : 22 ≤ repl.length := by
      simp [hrepl]
      omega
    rw [h5] at hbound
    omega
  exact ⟨fs₁, _, c₂, hrun1, hread1, hrun2, hread2, hne⟩

/-- C6, witness: the amended statement for the executable `x` of
`p 1.0.0` in `cWorld`. -/
theorem C6_reshim_duplicates_witness :
    cFsExe.isExecutable cExe = true ∧
    cExe.getLast? = some ("x".data) ∧
    cFsExe.readFile (joinStr (cData ++ ["shims".data]) ("x".data)) = none ∧
    (∃ fs₁ fs₂ c₂,
      write_shim_script cWorld ("p".data) ("1.0.0".data) cExe cFsExe = (.ok (), fs₁) ∧
      fs₁.readFile (joinStr (cData ++ ["shims".data]) ("x".data)) =
        some (freshShimContents cWorld ("p".data) ("1.0.0".data) ("x".data)) ∧
      write_shim_script cWorld ("p".data) ("1.0.0".data) cExe fs₁ = (.ok (), fs₂) ∧
      fs₂.readFile (joinStr (cData ++ ["shims".data]) ("x".data)) = some c₂ ∧
      c₂ ≠ freshShimContents cWorld ("p".data) ("1.0.0".data) ("x".data)) :=
  ⟨by decide, by decide, by decide,
    C6_reshim_duplicates cWorld ("p".data) ("1.0.0".data) cExe ("x".data) cData cFsExe
      (by decide) (by decide) (by decide) (by decide)⟩

/-- C7, counterexample: the shim `a` lists only `p 1.0.0` in its
metadata, yet the dispatcher's version selection (with `p` resolving to
`path:/x`) yields the pair `p path:/x`, which is not listed in the shim's
metadata. -/
theorem C7_counterexample :
    (shim_plugin_versions cWorldSel ("a".data) cFsSel).1 = .ok [("p 1.0.0".data)] ∧
    (select_version cWorldSel ("a".data) cFsSel).1 = .ok (some ("p path:/x".data)) ∧
    ("p path:/x".data) ∉ [("p 1.0.0".data)] := by
  decide

/-- C7, amended: whenever the dispatcher's version selection yields a
result `r`, then `r = plugin ++ " " ++ tok` where either some metadata
payload line of the shim splits (on spaces) as `plugin :: tok :: _`, or
`tok` is `system` (matched via the synthetic `<tool> system` entries
`shim_versions` adds), or `tok` begins with `path:` (the explicit escape
in `select_version`).  So the selection is constrained by the shim's
metadata except for the documented `system` and `path:` escapes. -/
theorem C7_dispatch_metadata (w : World) (shim : Str) (fs fs' : Fs) (r : Str)
    (h : select_version w shim fs = (.ok (some r), fs')) :
    ∃ vs plugin tok,
      (shim_plugin_versions w shim fs).1 = .ok vs ∧
      r = plugin ++ ' ' :: tok ∧
      ((∃ pv ∈ vs, ∃ rest, splitChar pv ' ' = plugin :: tok :: rest) ∨
        tok = "system".data ∨ strStartsWith tok ("path:".data) = true) := by
  rw [select_version] at h
  cases hspv : shim_plugin_versions w shim fs with
  | mk res fs₀ =>
    have hfs₀ : fs₀ = fs := by
      have := shim_plugin_versions_state w shim fs
      rw [hspv] at this
      exact this
    subst hfs₀
    cases res with
    | error e =>
      rw [shim_versions, shim_plugins] at h
      simp only [M.run_bind, hspv] at h
      simp at h
    | ok vs =>
      rw [shim_versions, shim_plugins] at h
      simp only [M.run_bind, hspv, M.run_pure] at h
      obtain ⟨p, hpmem, toks, htoks⟩ := selectLoop_sound _ _ _ _ _ _ h
      obtain ⟨tok, htokmem, hpairs⟩ := selectTokens_sound _ _ _ _ htoks
      obtain ⟨hr, pv, hpvmem, a, b, rest, hsplit, hpa, hdisj⟩ :=
        selectPairs_sound _ _ _ _ hpairs
      refine ⟨vs, p, tok, by simp [hspv], hr, ?_⟩
      rw [List.mem_append] at hpvmem
      cases hpvmem with
      | inl hin =>
        cases hdisj with
        | inl htb =>
          subst htb hpa
          exact Or.inl ⟨pv, hin, rest, hsplit⟩
        | inr hpath => exact Or.inr (Or.inr hpath)
      | inr hin =>
        obtain ⟨q, hq, rfl⟩ := List.mem_map.mp hin
        have hsplitq : splitChar (firstWord q ++ ' ' :: "system".data) ' ' =
            firstWord q :: ["system".data] := by
          have hfree : ∀ c ∈ firstWord q, ¬ c = ' ' := by
            intro c hc
            have := List.mem_takeWhile_imp hc
            simpa using this
          rw [splitChar_sepfree_append _ _ _ hfree]
          rfl
        rw [hsplitq] at hsplit
        cases hdisj with
        | inl htb =>
          have hb : b = "system".data := by
            have := hsplit
            simp only [List.cons.injEq] at this
            exact this.2.1.symm
          exact Or.inr (Or.inl (htb.trans hb))
        | inr hpath => exact Or.inr (Or.inr hpath)

/-- C7, witness: the amended statement at the concrete selection of the
counterexample world. -/
theorem C7_dispatch_metadata_witness :
    select_version cWorldSel ("a".data) cFsSel = (.ok (some ("p path:/x".data)), cFsSel) ∧
    (∃ vs plugin tok,
      (shim_plugin_versions cWorldSel ("a".data) cFsSel).1 = .ok vs ∧
      ("p path:/x".data) = plugin ++ ' ' :: tok ∧
      ((∃ pv ∈ vs, ∃ rest, splitChar pv ' ' = plugin :: tok :: rest) ∨
        tok = "system".data ∨ strStartsWith tok ("path:".data) = true)) :=
  ⟨by decide,
    C7_dispatch_metadata cWorldSel ("a".data) cFsSel cFsSel ("p path:/x".data) (by decide)⟩

/-- C8: the comment stripper computes the stripped line but returns the
ORIGINAL line (`Some(line)` instead of `Some(uncommented)`), so on
`ruby 2.0.0 # inline comment` the trailing comment is NOT removed — the
claim and the function's own in-source comment describe
`remove_tool_version_comments_documented`, which differs.  Comment-only
lines do yield `None`. -/
theorem C8_comment_stripper_bug :
    remove_tool_version_comments ("ruby 2.0.0 # inline comment".data) =
      some ("ruby 2.0.0 # inline comment".data) ∧
    remove_tool_version_comments_documented ("ruby 2.0.0 # inline comment".data) =
      some ("ruby 2.0.0".data) ∧
    remove_tool_version_comments ("# comment line".data) = none := by
  decide

/-- C9, counterexample: a legacy file holding `1.2.3` with a trailing
newline, no `parse-legacy-file` callback: the resolved version is the
RAW contents `1.2.3\n`, which differs from its trimmed form — the
contents are not trimmed as claimed. -/
theorem C9_counterexample :
    parse_legacy_version_file cWorld cLegacy ("p".data) cFsLegacy =
      (.ok (some ("1.2.3\n".data)), cFsLegacy) ∧
    trimBoth ("1.2.3\n".data) ≠ "1.2.3\n".data := by
  decide

/-- C9, amended: when a legacy version file exists and the plugin has no
`parse-legacy-file` callback, the resolved version is the file's contents
read verbatim with NO trimming or other transformation. -/
theorem C9_legacy_verbatim (w : World) (fs : Fs) (path pp : FsPath)
    (plugin contents : Str)
    (h1 : plugin_path w plugin = .ok pp)
    (h2 : fs.readFile path = some contents)
    (h3 : fs.isFile (pp ++ ["bin".data, "parse-legacy-file".data]) = false) :
    parse_legacy_version_file w path plugin fs = (.ok (some contents), fs) := by
  have hf : fs.isFile path = true := by simp [Fs.isFile, h2]
  simp [parse_legacy_version_file, h1, M.run_bind, M.run_liftE_ok, M.run_get,
    M.run_pure, hf, h3, h2]

/-- C9, witness: the amended statement at the concrete legacy file. -/
theorem C9_legacy_verbatim_witness :
    plugin_path cWorld ("p".data) = .ok (joinStr (cData ++ ["plugins".data]) ("p".data)) ∧
    cFsLegacy.readFile cLegacy = some ("1.2.3\n".data) ∧
    parse_legacy_version_file cWorld cLegacy ("p".data) cFsLegacy =
      (.ok (some ("1.2.3\n".data)), cFsLegacy) :=
  ⟨by decide, by decide,
    C9_legacy_verbatim cWorld cFsLegacy cLegacy
      (joinStr (cData ++ ["plugins".data]) ("p".data)) ("p".data) ("1.2.3\n".data)
      (by decide) (by decide) (by decide)⟩

/-- C10: for every plugin whose plugin directory exists, (a) the
version-existence check succeeds for the version `system` leaving the
filesystem untouched (no install directory is consulted or created); and
(b) for a non-`system` version whose computed install directory does not
exist, it fails with an error whose message is the empty string. -/
theorem C10_version_exists :
    (∀ (w : World) (fs : Fs) (plugin : Str) (pp : FsPath),
      plugin ≠ [] → plugin_path w plugin = .ok pp → fs.isDir pp = true →
      version_exists w plugin ("system".data) fs = (.ok (), fs)) ∧
    (∀ (w : World) (fs fs' : Fs) (plugin version : Str) (pp ip : FsPath),
      plugin ≠ [] → plugin_path w plugin = .ok pp → fs.isDir pp = true →
      version ≠ "system".data →
      find_install_path w plugin version fs = (.ok (some ip), fs') →
      fs'.isDir ip = false →
      version_exists w plugin version fs = (.error [], fs')) := by
  constructor
  · intro w fs plugin pp h1 h2 h3
    cases plugin with
    | nil => exact absurd rfl h1
    | cons c cs =>
      simp [version_exists, plugin_exists, find_install_path, h2, h3,
        M.run_bind, M.run_liftE_ok, M.run_get, M.run_pure, List.isEmpty]
  · intro w fs fs' plugin version pp ip h1 h2 h3 _hsys h5 h6
    cases plugin with
    | nil => exact absurd rfl h1
    | cons c cs =>
      simp [version_exists, plugin_exists, h2, h3, h5, h6,
        M.run_bind, M.run_liftE_ok, M.run_get, M.run_pure, M.run_throw, List.isEmpty]

/-- C10, witness: in `cWorld` the plugin `p` exists; `system` passes the
check without touching the filesystem, and `1.0.0` (not installed) fails
with the empty error message. -/
theorem C10_version_exists_witness :
    ("p".data ≠ ([] : Str)) ∧
    plugin_path cWorld ("p".data) = .ok (joinStr (cData ++ ["plugins".data]) ("p".data)) ∧
    cFs.isDir (joinStr (cData ++ ["plugins".data]) ("p".data)) = true ∧
    version_exists cWorld ("p".data) ("system".data) cFs = (.ok (), cFs) ∧
    version_exists cWorld ("p".data) ("1.0.0".data) cFs =
      (.error [], (find_install_path cWorld ("p".data) ("1.0.0".data) cFs).2) :=
  ⟨by decide, by decide, by decide,
    C10_version_exists.1 cWorld cFs ("p".data)
      (joinStr (cData ++ ["plugins".data]) ("p".data)) (by decide) (by decide) (by decide),
    C10_version_exists.2 cWorld cFs (find_install_path cWorld ("p".data) ("1.0.0".data) cFs).2
      ("p".data) ("1.0.0".data) (joinStr (cData ++ ["plugins".data]) ("p".data))
      cInstallPath (by decide) (by decide) (by decide) (by decide) (by decide) (by decide)⟩

end Asdf
